import Mathlib

/-!
Verification development for `scripts/configure.py` of the sticky-dvr
repository: a shallow embedding of the configuration resolution engine
(the `SecretStore` class, its `__call__`, `_generate` and `flush`
methods, and the `deep_merge` function), together with theorems
settling the specification claims.

Python dictionaries with string keys are embedded as association lists
with unique keys; `dict.get(k, default)` is `dictGet`, and
`d[k] = v` is `dictSet` (update in place if present, append if new,
matching insertion-order semantics of Python dicts).  The
cryptographically secure byte source (`os.urandom` behind
`secrets.token_hex` / `secrets.token_urlsafe`) is embedded as an
oracle `entropy : Nat → Nat` together with a read position carried in
the store state; each generation consumes `nbytes` positions.
-/

namespace StickyDvr

/-- `d.get(k, dflt)` on a Python dict embedded as an association list. -/
def dictGet (d : List (String × String)) (k dflt : String) : String :=
  match List.lookup k d with
  | some v => v
  | none => dflt

/-- `d[k] = v` on a Python dict embedded as an association list:
replaces the value at the first occurrence of `k`, or appends `(k, v)`
when `k` is absent (Python dicts keep insertion order). -/
def dictSet (d : List (String × String)) (k v : String) : List (String × String) :=
  match d with
  | [] => [(k, v)]
  | (k', v') :: rest => if k' = k then (k, v) :: rest else (k', v') :: dictSet rest k v

/-- The `nbytes` bytes read from the entropy oracle starting at
position `pos` (each reduced mod 256, as `os.urandom` yields bytes). -/
def drawBytes (entropy : Nat → Nat) (pos nbytes : Nat) : List Nat :=
  (List.range nbytes).map (fun i => entropy (pos + i) % 256)

/-- The sixteen lowercase hexadecimal digits, in value order. -/
def HEX_DIGITS : String := "0123456789abcdef"

/-- The hexadecimal digit of value `i` (out-of-range indices fall back
to `0`, which never happens for genuine bytes). -/
def hexDigit (i : Nat) : Char := HEX_DIGITS.data.getD i '0'

/-- The character list of `secrets.token_hex`: two lowercase hex digits
per byte, high nibble first. -/
def hexChars : List Nat → List Char
  | [] => []
  | b :: rest => hexDigit (b / 16) :: hexDigit (b % 16) :: hexChars rest

/-- `secrets.token_hex` applied to a concrete byte list. -/
def tokenHex (bytes : List Nat) : String := String.mk (hexChars bytes)

/-- The URL-safe base64 alphabet (RFC 4648 §5): `A`–`Z`, `a`–`z`,
`0`–`9`, `-`, `_`. -/
def B64URL_ALPHABET : String :=
  "ABCDEFGHIJKLMNOPQRSTUVWXYZabcdefghijklmnopqrstuvwxyz0123456789-_"

/-- The URL-safe base64 character of value `i` (out-of-range indices
fall back to `A`, which never happens for genuine 6-bit groups). -/
def b64Digit (i : Nat) : Char := B64URL_ALPHABET.data.getD i 'A'

/-- The character list of unpadded URL-safe base64: 3 bytes become 4
characters, a trailing byte becomes 2, two trailing bytes become 3
(padding `=` stripped, as `secrets.token_urlsafe` does). -/
def b64urlChars : List Nat → List Char
  | [] => []
  | [b1] => [b64Digit (b1 / 4), b64Digit (b1 % 4 * 16)]
  | [b1, b2] =>
      [b64Digit (b1 / 4), b64Digit (b1 % 4 * 16 + b2 / 16), b64Digit (b2 % 16 * 4)]
  | b1 :: b2 :: b3 :: rest =>
      b64Digit (b1 / 4) :: b64Digit (b1 % 4 * 16 + b2 / 16) ::
      b64Digit (b2 % 16 * 4 + b3 / 64) :: b64Digit (b3 % 64) :: b64urlChars rest

/-- `secrets.token_urlsafe` applied to a concrete byte list. -/
def tokenUrlsafe (bytes : List Nat) : String := String.mk (b64urlChars bytes)

/-- `SecretStore._generate(type, nbytes)`: `hex` yields
`secrets.token_hex(nbytes)`, `urlsafe` yields
`secrets.token_urlsafe(nbytes)`, anything else raises `ValueError`
before consuming entropy. -/
def generate (entropy : Nat → Nat) (pos : Nat) (ty : String) (nbytes : Nat) :
    Except String String :=
  if ty = "hex" then Except.ok (tokenHex (drawBytes entropy pos nbytes))
  else if ty = "urlsafe" then Except.ok (tokenUrlsafe (drawBytes entropy pos nbytes))
  else Except.error ("unknown secret type: " ++ ty)

/-- The state of a `SecretStore` object: `user` is the merged config's
`secrets` section (`self._user`), `persisted` the records loaded from
`.secrets.yaml` (`self._persisted`), `dirty` is `self._dirty`, and
`entropy`/`pos` model the operating-system randomness source consumed
by generation. -/
structure SecretStore where
  user : List (String × String)
  persisted : List (String × String)
  dirty : Bool
  entropy : Nat → Nat
  pos : Nat

/-- `SecretStore.__call__(key, type, bytes)`: pinned value from the
merged config if non-empty, else persisted value if non-empty, else
generate, record under `key`, set the dirty flag and advance the
entropy position.  Returns the outcome together with the object state
after the call (unchanged when a `ValueError` escapes). -/
def SecretStore.call (st : SecretStore) (key ty : String) (nbytes : Nat) :
    Except String String × SecretStore :=
  let pinned := dictGet st.user key ""
  if pinned ≠ "" then (Except.ok pinned, st)
  else
    let persisted := dictGet st.persisted key ""
    if persisted ≠ "" then (Except.ok persisted, st)
    else
      match generate st.entropy st.pos ty nbytes with
      | Except.ok v =>
          (Except.ok v,
            { st with
              persisted := dictSet st.persisted key v
              dirty := true
              pos := st.pos + nbytes })
      | Except.error e => (Except.error e, st)

/-- The document `yaml.dump({"secrets": self._persisted})` writes: one
`secrets:` header followed by one `key: value` line per record. -/
def dumpSecrets (records : List (String × String)) : String :=
  "secrets:\n" ++ String.join (records.map (fun kv => "  " ++ kv.1 ++ ": " ++ kv.2 ++ "\n"))

/-- A file-system operation performed by the store.  `open(p, "w")`
truncates `p` at once; the subsequent `yaml.dump` writes the document
into the (now empty) file; `rename` is the replace step an atomic
write-new-then-replace-old scheme would use. -/
inductive FsOp where
  | truncate (path : String)
  | write (path : String) (content : String)
  | rename (src dst : String)
deriving DecidableEq, Repr

/-- `SecretStore.flush()` as its trace of file-system operations on the
store file at `path`: nothing when the dirty flag is unset; when dirty,
`open(self._file, "w")` truncates the store file in place and
`yaml.dump` then writes the whole current record set into it. -/
def SecretStore.flushOps (st : SecretStore) (path : String) : List FsOp :=
  if st.dirty then
    [FsOp.truncate path, FsOp.write path (dumpSecrets st.persisted)]
  else []

/-- Effect of one file-system operation on file contents
(path ↦ content, `none` = absent file). -/
def applyOp (fs : String → Option String) (op : FsOp) : String → Option String :=
  match op with
  | FsOp.truncate p => fun q => if q = p then some "" else fs q
  | FsOp.write p c => fun q => if q = p then some (((fs p).getD "") ++ c) else fs q
  | FsOp.rename src dst =>
      fun q => if q = dst then fs src else if q = src then none else fs q

/-- Effect of a sequence of file-system operations. -/
def applyOps (fs : String → Option String) (ops : List FsOp) : String → Option String :=
  ops.foldl applyOp fs

/-- Whether a trace follows the write-new-then-replace-old discipline
with respect to `target`: the target file is never truncated or
written directly, only ever replaced wholesale by a rename. -/
def atomicReplaceOnly (ops : List FsOp) (target : String) : Bool :=
  ops.all (fun op =>
    match op with
    | FsOp.truncate p => p ≠ target
    | FsOp.write p _ => p ≠ target
    | FsOp.rename _ _ => true)

/-- A YAML-style configuration value: scalar, sequence, or mapping
(a Python dict embedded as an association list, insertion-ordered). -/
inductive Val where
  | str (s : String)
  | num (n : Int)
  | boolean (b : Bool)
  | seq (xs : List Val)
  | map (m : List (String × Val))
deriving Repr

/-- `base[k] = v` on a configuration mapping: replace at the first
occurrence of `k`, append when absent. -/
def dictSetV (d : List (String × Val)) (k : String) (v : Val) : List (String × Val) :=
  match d with
  | [] => [(k, v)]
  | (k', v') :: rest => if k' = k then (k, v) :: rest else (k', v') :: dictSetV rest k v

/-- The test `key in base and isinstance(base[key], dict)`: the nested
mapping stored at `k` in `base`, when there is one. -/
def lookupMap (base : List (String × Val)) (k : String) : Option (List (String × Val)) :=
  match List.lookup k base with
  | some (Val.map bm) => some bm
  | _ => none

/-- `deep_merge(base, override)`: for each key of `override` in order,
recurse when both the existing and the incoming value are mappings
(`key in base and isinstance(base[key], dict) and isinstance(val, dict)`),
otherwise assign the incoming value; returns the updated base. -/
def deep_merge : List (String × Val) → List (String × Val) → List (String × Val)
  | base, [] => base
  | base, (k, Val.map om) :: rest =>
      deep_merge
        ((lookupMap base k).elim (dictSetV base k (Val.map om))
          (fun bm => dictSetV base k (Val.map (deep_merge bm om))))
        rest
  | base, (k, v) :: rest => deep_merge (dictSetV base k v) rest
termination_by _ o => sizeOf o

/-! ### Helper lemmas on the dictionary model -/

theorem dictGet_dictSet_self : ∀ (d : List (String × String)) (k v dflt : String),
    dictGet (dictSet d k v) k dflt = v
  | [], k, v, dflt => by simp [dictSet, dictGet, List.lookup]
  | (k', v') :: rest, k, v, dflt => by
      by_cases h : k' = k
      · subst h; simp [dictSet, dictGet, List.lookup]
      · have ih := dictGet_dictSet_self rest k v dflt
        have hb : (k == k') = false := by simp [Ne.symm h]
        simp only [dictSet, if_neg h, dictGet, List.lookup, hb]
        exact ih

/-! ### Helper lemmas on token generation -/

theorem hexChars_length : ∀ l : List Nat, (hexChars l).length = 2 * l.length
  | [] => rfl
  | b :: rest => by
      simp [hexChars, hexChars_length rest, List.length_cons]
      omega

theorem b64urlChars_length : ∀ l : List Nat, (b64urlChars l).length = (4 * l.length + 2) / 3
  | [] => rfl
  | [_] => by simp [b64urlChars]
  | [_, _] => by simp [b64urlChars]
  | b1 :: b2 :: b3 :: rest => by
      have ih := b64urlChars_length rest
      simp [b64urlChars, ih, List.length_cons]
      omega

theorem getDMemOrEq (l : List Char) (i : Nat) (d : Char) :
    l.getD i d ∈ l ∨ l.getD i d = d := by
  induction l generalizing i with
  | nil => exact Or.inr (List.getD_nil)
  | cons a t ih =>
      cases i with
      | zero => exact Or.inl (by simp)
      | succ j =>
          rcases ih j with h | h
          · exact Or.inl (by simp only [List.getD_cons_succ]; exact List.mem_cons_of_mem a h)
          · exact Or.inr (by simpa using h)

theorem hexDigit_mem (i : Nat) : hexDigit i ∈ HEX_DIGITS.data := by
  rcases getDMemOrEq HEX_DIGITS.data i '0' with h | h
  · simpa [hexDigit] using h
  · rw [hexDigit, h]; decide

theorem b64Digit_mem (i : Nat) : b64Digit i ∈ B64URL_ALPHABET.data := by
  rcases getDMemOrEq B64URL_ALPHABET.data i 'A' with h | h
  · simpa [b64Digit] using h
  · rw [b64Digit, h]; decide

theorem hexChars_mem : ∀ (l : List Nat), ∀ c ∈ hexChars l, c ∈ HEX_DIGITS.data
  | [], c, hc => by cases hc
  | b :: rest, c, hc => by
      simp only [hexChars, List.mem_cons] at hc
      rcases hc with h | h | h
      · exact h ▸ hexDigit_mem _
      · exact h ▸ hexDigit_mem _
      · exact hexChars_mem rest c h

theorem b64urlChars_mem : ∀ (l : List Nat), ∀ c ∈ b64urlChars l, c ∈ B64URL_ALPHABET.data
  | [], c, hc => by cases hc
  | [_], c, hc => by
      simp only [b64urlChars, List.mem_cons, List.not_mem_nil, or_false] at hc
      rcases hc with h | h
      · exact h ▸ b64Digit_mem _
      · exact h ▸ b64Digit_mem _
  | [_, _], c, hc => by
      simp only [b64urlChars, List.mem_cons, List.not_mem_nil, or_false] at hc
      rcases hc with h | h | h
      · exact h ▸ b64Digit_mem _
      · exact h ▸ b64Digit_mem _
      · exact h ▸ b64Digit_mem _
  | b1 :: b2 :: b3 :: rest, c, hc => by
      simp only [b64urlChars, List.mem_cons] at hc
      rcases hc with h | h | h | h | h
      · exact h ▸ b64Digit_mem _
      · exact h ▸ b64Digit_mem _
      · exact h ▸ b64Digit_mem _
      · exact h ▸ b64Digit_mem _
      · exact b64urlChars_mem rest c h

theorem drawBytes_length (e : Nat → Nat) (p n : Nat) : (drawBytes e p n).length = n := by
  simp [drawBytes]

theorem tokenHex_length (e : Nat → Nat) (p n : Nat) :
    (tokenHex (drawBytes e p n)).length = 2 * n := by
  show (hexChars (drawBytes e p n)).length = 2 * n
  rw [hexChars_length, drawBytes_length]

theorem tokenUrlsafe_length (e : Nat → Nat) (p n : Nat) :
    (tokenUrlsafe (drawBytes e p n)).length = (4 * n + 2) / 3 := by
  show (b64urlChars (drawBytes e p n)).length = (4 * n + 2) / 3
  rw [b64urlChars_length, drawBytes_length]

/-! ### Claim theorems about `SecretStore.__call__` -/

/-- C1: if the merged configuration's secrets section holds a non-empty
pinned value for `k`, then `resolve(k, type, byteLength)` returns that
pinned value — whatever the loaded secret store holds for `k` — and the
call neither generates a new value nor mutates the store state or the
dirty flag (the object is returned exactly as it was). -/
theorem C1_pinned_dominates (st : SecretStore) (k ty : String) (n : Nat)
    (h : dictGet st.user k "" ≠ "") :
    st.call k ty n = (Except.ok (dictGet st.user k ""), st) := by
  simp [SecretStore.call, h]

theorem C1_pinned_dominates_witness :
    SecretStore.call
      { user := [("k", "pinnedval")], persisted := [("k", "storedval")],
        dirty := false, entropy := fun _ => 0, pos := 0 } "k" "hex" 32
      = (Except.ok "pinnedval",
         { user := [("k", "pinnedval")], persisted := [("k", "storedval")],
           dirty := false, entropy := fun _ => 0, pos := 0 }) :=
  C1_pinned_dominates _ "k" "hex" 32 (by decide)

/-- C3: with no non-empty pinned value for `k` and a non-empty value for
`k` in the loaded secret store, `resolve(k, type, byteLength)` returns
exactly the stored value and leaves the object — record set, dirty flag
and entropy position — untouched, so a run started from an unchanged
store file reproduces that exact value. -/
theorem C3_persisted_stable (st : SecretStore) (k ty : String) (n : Nat)
    (hp : dictGet st.user k "" = "") (hs : dictGet st.persisted k "" ≠ "") :
    st.call k ty n = (Except.ok (dictGet st.persisted k ""), st) := by
  simp [SecretStore.call, hp, hs]

theorem C3_persisted_stable_witness :
    SecretStore.call
      { user := [], persisted := [("k", "storedval")],
        dirty := false, entropy := fun _ => 0, pos := 0 } "k" "urlsafe" 18
      = (Except.ok "storedval",
         { user := [], persisted := [("k", "storedval")],
           dirty := false, entropy := fun _ => 0, pos := 0 }) :=
  C3_persisted_stable _ "k" "urlsafe" 18 (by decide) (by decide)

/-- C8: with no non-empty pinned or persisted value for `k`, a call with
a generation type other than `hex` or `urlsafe` raises `ValueError`
(no silent fallback), and the object state — record set, dirty flag and
entropy position — is exactly as before the call. -/
theorem C8_unknown_type_fatal (st : SecretStore) (k ty : String) (n : Nat)
    (hp : dictGet st.user k "" = "") (hs : dictGet st.persisted k "" = "")
    (h1 : ty ≠ "hex") (h2 : ty ≠ "urlsafe") :
    st.call k ty n = (Except.error ("unknown secret type: " ++ ty), st) := by
  simp [SecretStore.call, hp, hs, generate, h1, h2]

theorem C8_unknown_type_fatal_witness :
    SecretStore.call
      { user := [], persisted := [], dirty := false,
        entropy := fun _ => 0, pos := 0 } "k" "bogus" 32
      = (Except.error ("unknown secret type: " ++ "bogus"),
         { user := [], persisted := [], dirty := false,
           entropy := fun _ => 0, pos := 0 }) :=
  C8_unknown_type_fatal _ "k" "bogus" 32 (by decide) (by decide) (by decide) (by decide)

/-- C9: a pinned entry whose value is the empty string is treated as
absent: resolution falls through to the persisted tier, and when that
too is empty or absent it generates a fresh value, records it, and sets
the dirty flag. -/
theorem C9_empty_pinned_falls_through (st : SecretStore) (k ty : String) (n : Nat)
    (hp : dictGet st.user k "" = "") :
    (dictGet st.persisted k "" ≠ "" →
       st.call k ty n = (Except.ok (dictGet st.persisted k ""), st)) ∧
    (dictGet st.persisted k "" = "" → ty = "hex" →
       st.call k ty n =
         (Except.ok (tokenHex (drawBytes st.entropy st.pos n)),
          { st with
            persisted := dictSet st.persisted k (tokenHex (drawBytes st.entropy st.pos n))
            dirty := true
            pos := st.pos + n })) ∧
    (dictGet st.persisted k "" = "" → ty = "urlsafe" →
       st.call k ty n =
         (Except.ok (tokenUrlsafe (drawBytes st.entropy st.pos n)),
          { st with
            persisted := dictSet st.persisted k (tokenUrlsafe (drawBytes st.entropy st.pos n))
            dirty := true
            pos := st.pos + n })) := by
  refine ⟨fun hs => ?_, fun hs hty => ?_, fun hs hty => ?_⟩
  · simp [SecretStore.call, hp, hs]
  · subst hty; simp [SecretStore.call, hp, hs, generate]
  · subst hty; simp [SecretStore.call, hp, hs, generate]

theorem C9_empty_pinned_falls_through_witness :
    SecretStore.call
      { user := [("k", "")], persisted := [("k", "storedval")],
        dirty := false, entropy := fun _ => 0, pos := 0 } "k" "hex" 32
      = (Except.ok "storedval",
         { user := [("k", "")], persisted := [("k", "storedval")],
           dirty := false, entropy := fun _ => 0, pos := 0 }) :=
  (C9_empty_pinned_falls_through _ "k" "hex" 32 (by decide)).1 (by decide)

/-- C10: the generation type and byte length influence nothing once a
non-empty pinned or persisted value exists for `k`: any two calls for
`k`, whatever their `(type, byteLength)` arguments, produce identical
results and identical final states. -/
theorem C10_params_ignored_when_chosen (st : SecretStore) (k : String)
    (t1 t2 : String) (n1 n2 : Nat)
    (h : dictGet st.user k "" ≠ "" ∨ dictGet st.persisted k "" ≠ "") :
    st.call k t1 n1 = st.call k t2 n2 := by
  rcases h with h | h
  · simp [SecretStore.call, h]
  · by_cases hp : dictGet st.user k "" = ""
    · simp [SecretStore.call, hp, h]
    · simp [SecretStore.call, hp]

theorem C10_params_ignored_when_chosen_witness :
    SecretStore.call
      { user := [], persisted := [("k", "storedval")],
        dirty := false, entropy := fun _ => 0, pos := 0 } "k" "hex" 32
    = SecretStore.call
      { user := [], persisted := [("k", "storedval")],
        dirty := false, entropy := fun _ => 0, pos := 0 } "k" "urlsafe" 18 :=
  C10_params_ignored_when_chosen _ "k" "hex" "urlsafe" 32 18 (Or.inr (by decide))

/-- An immediately repeated call with the same arguments returns the
same string (this covers even the degenerate byte length 0, whose
generated value is the empty string). -/
theorem call_repeat_ok (st : SecretStore) (k ty : String) (n : Nat)
    (v : String) (st' : SecretStore)
    (h : st.call k ty n = (Except.ok v, st')) :
    ∃ st'', st'.call k ty n = (Except.ok v, st'') := by
  by_cases h1 : dictGet st.user k "" = ""
  · by_cases h2 : dictGet st.persisted k "" = ""
    · by_cases t1 : ty = "hex"
      · subst t1
        simp [SecretStore.call, h1, h2, generate] at h
        obtain ⟨hv, hst⟩ := h
        subst hv; subst hst
        by_cases hv0 : tokenHex (drawBytes st.entropy st.pos n) = ""
        · have hn : n = 0 := by
            have hl := tokenHex_length st.entropy st.pos n
            rw [hv0] at hl
            simpa using hl.symm
          subst hn
          rw [hv0]
          exact ⟨_, by
            simp [SecretStore.call, h1, dictGet_dictSet_self,
              generate, drawBytes, tokenHex, hexChars]
            rfl⟩
        · exact ⟨_, by
            simp [SecretStore.call, h1, dictGet_dictSet_self, hv0]
            rfl⟩
      · by_cases t2 : ty = "urlsafe"
        · subst t2
          simp [SecretStore.call, h1, h2, generate] at h
          obtain ⟨hv, hst⟩ := h
          subst hv; subst hst
          by_cases hv0 : tokenUrlsafe (drawBytes st.entropy st.pos n) = ""
          · have hn : n = 0 := by
              have hl := tokenUrlsafe_length st.entropy st.pos n
              rw [hv0] at hl
              have : (4 * n + 2) / 3 = 0 := by simpa using hl.symm
              omega
            subst hn
            rw [hv0]
            exact ⟨_, by
              simp [SecretStore.call, h1, dictGet_dictSet_self,
                generate, drawBytes, tokenUrlsafe, b64urlChars]
              rfl⟩
          · exact ⟨_, by
              simp [SecretStore.call, h1, dictGet_dictSet_self, hv0]
              rfl⟩
        · exfalso
          simp [SecretStore.call, h1, h2, generate, t1, t2] at h
    · simp only [SecretStore.call, h1, h2, ne_eq, not_true_eq_false, if_false,
        not_false_eq_true, if_true, Prod.mk.injEq, Except.ok.injEq] at h
      obtain ⟨hv, hst⟩ := h
      subst hv; subst hst
      exact ⟨st, by simp [SecretStore.call, h1, h2]⟩
  · simp only [SecretStore.call, h1, ne_eq, not_false_eq_true, if_true,
      Prod.mk.injEq, Except.ok.injEq] at h
    obtain ⟨hv, hst⟩ := h
    subst hv; subst hst
    exact ⟨st, by simp [SecretStore.call, h1]⟩

/-- The session states reached by performing a list of resolution
requests `(key, type, bytes)` in order. -/
def callSeq (st : SecretStore) : List (String × String × Nat) → SecretStore
  | [] => st
  | (k, ty, n) :: rest => callSeq (st.call k ty n).2 rest

theorem dictGet_dictSet_ne (d : List (String × String)) (k k' v dflt : String)
    (h : k ≠ k') : dictGet (dictSet d k' v) k dflt = dictGet d k dflt := by
  induction d with
  | nil =>
      have hb : (k == k') = false := by simp [h]
      simp [dictSet, dictGet, List.lookup, hb]
  | cons p rest ih =>
      obtain ⟨k'', v''⟩ := p
      by_cases h2 : k'' = k'
      · subst h2
        have hb : (k == k'') = false := by simp [h]
        simp [dictSet, dictGet, List.lookup, hb]
      · cases hb : k == k''
        · simp only [dictSet, if_neg h2, dictGet, List.lookup, hb]
          exact ih
        · simp only [dictSet, if_neg h2, dictGet, List.lookup, hb]

/-- A non-empty value visible at the pinned or persisted tier for `k`
makes any call for `k` return it and leave the state unchanged. -/
theorem chosen_call_out (st : SecretStore) (k v : String) (hv : v ≠ "")
    (hc : dictGet st.user k "" = v ∨
          (dictGet st.user k "" = "" ∧ dictGet st.persisted k "" = v))
    (ty : String) (n : Nat) : st.call k ty n = (Except.ok v, st) := by
  rcases hc with hc | ⟨h1, h2⟩
  · simp [SecretStore.call, hc, hv]
  · have hp : dictGet st.persisted k "" ≠ "" := by rw [h2]; exact hv
    simp [SecretStore.call, h1, hp]
    exact h2

/-- Any call — for any key, type and length — preserves a non-empty
value visible at the pinned or persisted tier for `k`. -/
theorem chosen_preserved (st st2 : SecretStore) (k v : String) (hv : v ≠ "")
    (k2 ty2 : String) (n2 : Nat) (r : Except String String)
    (hcall : st.call k2 ty2 n2 = (r, st2))
    (hc : dictGet st.user k "" = v ∨
          (dictGet st.user k "" = "" ∧ dictGet st.persisted k "" = v)) :
    dictGet st2.user k "" = v ∨
      (dictGet st2.user k "" = "" ∧ dictGet st2.persisted k "" = v) := by
  by_cases h1 : dictGet st.user k2 "" = ""
  · by_cases h2 : dictGet st.persisted k2 "" = ""
    · rcases hg : generate st.entropy st.pos ty2 n2 with e | gv
      · simp [SecretStore.call, h1, h2, hg] at hcall
        obtain ⟨-, hst⟩ := hcall
        subst hst
        exact hc
      · simp [SecretStore.call, h1, h2, hg] at hcall
        obtain ⟨-, hst⟩ := hcall
        subst hst
        rcases hc with hc | ⟨ha, hb⟩
        · exact Or.inl hc
        · have hne : k ≠ k2 := by
            intro hkk
            rw [← hkk] at h2
            rw [hb] at h2
            exact hv h2
          exact Or.inr ⟨ha, by rw [dictGet_dictSet_ne _ _ _ _ _ hne]; exact hb⟩
    · -- persisted tier hit for k2: state unchanged
      simp [SecretStore.call, h1, h2] at hcall
      obtain ⟨-, hst⟩ := hcall
      subst hst
      exact hc
  · -- pinned tier hit for k2: state unchanged
    simp [SecretStore.call, h1] at hcall
    obtain ⟨-, hst⟩ := hcall
    subst hst
    exact hc

theorem chosen_callSeq : ∀ (reqs : List (String × String × Nat)) (st : SecretStore)
    (k v : String), v ≠ "" →
    (dictGet st.user k "" = v ∨
      (dictGet st.user k "" = "" ∧ dictGet st.persisted k "" = v)) →
    (dictGet (callSeq st reqs).user k "" = v ∨
      (dictGet (callSeq st reqs).user k "" = "" ∧
       dictGet (callSeq st reqs).persisted k "" = v))
  | [], st, k, v, hv, hc => by simpa [callSeq] using hc
  | (k2, ty2, n2) :: rest, st, k, v, hv, hc => by
      have hstep := chosen_preserved st (st.call k2 ty2 n2).2 k v hv k2 ty2 n2
        (st.call k2 ty2 n2).1 rfl hc
      simpa [callSeq] using chosen_callSeq rest (st.call k2 ty2 n2).2 k v hv hstep

/-- A successful call returning a non-empty `v` leaves `v` visible at
the pinned or persisted tier for its key. -/
theorem call_ok_chosen (st : SecretStore) (k ty : String) (n : Nat) (v : String)
    (st' : SecretStore) (h : st.call k ty n = (Except.ok v, st')) (hv : v ≠ "") :
    dictGet st'.user k "" = v ∨
      (dictGet st'.user k "" = "" ∧ dictGet st'.persisted k "" = v) := by
  by_cases h1 : dictGet st.user k "" = ""
  · by_cases h2 : dictGet st.persisted k "" = ""
    · rcases hg : generate st.entropy st.pos ty n with e | gv
      · simp [SecretStore.call, h1, h2, hg] at h
      · simp [SecretStore.call, h1, h2, hg] at h
        obtain ⟨hgv, hst⟩ := h
        subst hgv
        subst hst
        exact Or.inr ⟨by simpa using h1, by simp [dictGet_dictSet_self]⟩
    · simp [SecretStore.call, h1, h2] at h
      obtain ⟨hvv, hst⟩ := h
      subst hvv
      subst hst
      exact Or.inr ⟨h1, rfl⟩
  · simp [SecretStore.call, h1] at h
    obtain ⟨hvv, hst⟩ := h
    subst hvv
    subst hst
    exact Or.inl rfl

/-- C2: resolution is idempotent within a run: if a call for `k`
returned the string `v`, an immediately repeated call with the same
arguments returns exactly `v` again, before any flush; moreover, when
`v` is non-empty (always the case for a positive byte length), a call
for `k` still returns exactly `v` after any interleaved sequence of
other resolution calls in the same session. -/
theorem C2_idempotent_within_run (st : SecretStore) (k ty : String) (n : Nat)
    (v : String) (st' : SecretStore)
    (h : st.call k ty n = (Except.ok v, st')) :
    (∃ st'', st'.call k ty n = (Except.ok v, st'')) ∧
    (v ≠ "" → ∀ (reqs : List (String × String × Nat)),
       (callSeq st' reqs).call k ty n = (Except.ok v, callSeq st' reqs)) := by
  refine ⟨call_repeat_ok st k ty n v st' h, fun hv reqs => ?_⟩
  have hc := call_ok_chosen st k ty n v st' h hv
  exact chosen_call_out _ k v hv (chosen_callSeq reqs st' k v hv hc) ty n

theorem C2_idempotent_within_run_witness :
    ∃ st'', SecretStore.call
      { user := [], persisted := [("k", "0001")], dirty := true,
        entropy := fun i => i, pos := 2 } "k" "hex" 2
      = (Except.ok "0001", st'') :=
  (C2_idempotent_within_run
    { user := [], persisted := [], dirty := false, entropy := fun i => i, pos := 0 }
    "k" "hex" 2 "0001"
    { user := [], persisted := [("k", "0001")], dirty := true,
      entropy := fun i => i, pos := 2 }
    (by rfl)).1

/-- C7: generation with type `hex` and byte length `n` yields a string
of length `2 * n` over the lowercase hexadecimal digits; generation
with type `urlsafe` and byte length `n` yields an unpadded URL-safe
base64 string of length `(4 * n + 2) / 3` — which is exactly
`⌈4n/3⌉`, as the two bounds state — containing none of `+`, `/`, `=`. -/
theorem C7_generation_format (e : Nat → Nat) (p n : Nat) :
    generate e p "hex" n = Except.ok (tokenHex (drawBytes e p n)) ∧
    (tokenHex (drawBytes e p n)).length = 2 * n ∧
    (∀ c ∈ (tokenHex (drawBytes e p n)).data, c ∈ HEX_DIGITS.data) ∧
    generate e p "urlsafe" n = Except.ok (tokenUrlsafe (drawBytes e p n)) ∧
    (tokenUrlsafe (drawBytes e p n)).length = (4 * n + 2) / 3 ∧
    4 * n ≤ 3 * ((4 * n + 2) / 3) ∧ 3 * ((4 * n + 2) / 3) < 4 * n + 3 ∧
    (∀ c ∈ (tokenUrlsafe (drawBytes e p n)).data, c ≠ '+' ∧ c ≠ '/' ∧ c ≠ '=') := by
  refine ⟨by simp [generate], tokenHex_length e p n, ?_, by simp [generate],
    tokenUrlsafe_length e p n, by omega, by omega, ?_⟩
  · intro c hc
    exact hexChars_mem (drawBytes e p n) c hc
  · intro c hc
    have hmem := b64urlChars_mem (drawBytes e p n) c hc
    revert hmem
    have : ∀ d ∈ B64URL_ALPHABET.data, d ≠ '+' ∧ d ≠ '/' ∧ d ≠ '=' := by decide
    exact this c

theorem C7_generation_format_witness : '1' ∈ HEX_DIGITS.data :=
  (C7_generation_format (fun i => i) 0 3).2.2.1 '1' (by decide)

/-! ### Claim theorems about `SecretStore.flush` -/

/-- C6: when no new secret was generated during the run (the dirty flag
is unset), `flush` performs no file-system operation at all, so the
store file's content — and hence its modification state — is untouched. -/
theorem C6_flush_noop_when_clean (st : SecretStore) (path : String)
    (h : st.dirty = false) (fs : String → Option String) :
    st.flushOps path = [] ∧ applyOps fs (st.flushOps path) = fs := by
  constructor
  · simp [SecretStore.flushOps, h]
  · simp [SecretStore.flushOps, h, applyOps]

theorem C6_flush_noop_when_clean_witness :
    SecretStore.flushOps
      { user := [], persisted := [("k", "v")], dirty := false,
        entropy := fun _ => 0, pos := 0 } ".secrets.yaml" = [] ∧
    applyOps (fun _ => none)
      (SecretStore.flushOps
        { user := [], persisted := [("k", "v")], dirty := false,
          entropy := fun _ => 0, pos := 0 } ".secrets.yaml") = (fun _ => none) :=
  C6_flush_noop_when_clean _ ".secrets.yaml" rfl (fun _ => none)

/-- C4 counterexample: at a concrete dirty store and a store file whose
current content is the old record document, the flush trace violates
the write-new-then-replace-old discipline (it truncates and writes the
store file directly), and interrupting it after its first operation
leaves the store file empty — neither the old document nor the new one
— so the old records are not left intact. -/
theorem C4_cex_flush_not_atomic :
    atomicReplaceOnly
      (SecretStore.flushOps
        { user := [], persisted := [("db_app_pass", "oldsecret"), ("extra", "newsecret")],
          dirty := true, entropy := fun _ => 0, pos := 0 } ".secrets.yaml")
      ".secrets.yaml" = false ∧
    applyOps
      (fun q => if q = ".secrets.yaml" then some "secrets:\n  db_app_pass: oldsecret\n" else none)
      ((SecretStore.flushOps
        { user := [], persisted := [("db_app_pass", "oldsecret"), ("extra", "newsecret")],
          dirty := true, entropy := fun _ => 0, pos := 0 } ".secrets.yaml").take 1)
      ".secrets.yaml" = some "" ∧
    ("" : String) ≠ "secrets:\n  db_app_pass: oldsecret\n" ∧
    ("" : String) ≠ dumpSecrets [("db_app_pass", "oldsecret"), ("extra", "newsecret")] := by
  refine ⟨by decide, by decide, by decide, by decide⟩

/-- C4 (amended): when the dirty flag is set, `flush` rewrites the
entire current record set (old plus newly generated entries) as one
document — but by truncating the store file in place and then writing
the new content into it, with no write-new-then-replace-old step; the
completed trace leaves the file holding exactly the dumped record set,
while its first step alone leaves the file empty. -/
theorem C4_flush_rewrites_in_place (st : SecretStore) (path : String)
    (h : st.dirty = true) (fs : String → Option String) :
    st.flushOps path =
      [FsOp.truncate path, FsOp.write path (dumpSecrets st.persisted)] ∧
    applyOps fs (st.flushOps path) path = some (dumpSecrets st.persisted) ∧
    applyOps fs ((st.flushOps path).take 1) path = some "" := by
  refine ⟨by simp [SecretStore.flushOps, h], ?_, ?_⟩
  · simp [SecretStore.flushOps, h, applyOps, applyOp]
  · simp [SecretStore.flushOps, h, applyOps, applyOp]

theorem C4_flush_rewrites_in_place_witness :
    SecretStore.flushOps
      { user := [], persisted := [("k", "v")], dirty := true,
        entropy := fun _ => 0, pos := 0 } ".secrets.yaml" =
      [FsOp.truncate ".secrets.yaml",
       FsOp.write ".secrets.yaml" (dumpSecrets [("k", "v")])] ∧
    applyOps (fun _ => none)
      (SecretStore.flushOps
        { user := [], persisted := [("k", "v")], dirty := true,
          entropy := fun _ => 0, pos := 0 } ".secrets.yaml") ".secrets.yaml"
      = some (dumpSecrets [("k", "v")]) ∧
    applyOps (fun _ => none)
      ((SecretStore.flushOps
        { user := [], persisted := [("k", "v")], dirty := true,
          entropy := fun _ => 0, pos := 0 } ".secrets.yaml").take 1) ".secrets.yaml"
      = some "" :=
  C4_flush_rewrites_in_place _ ".secrets.yaml" rfl (fun _ => none)

/-! ### Claim theorems about `deep_merge` -/

theorem lookup_eq_none_of_not_mem {β : Type} (l : List (String × β)) (k : String)
    (h : k ∉ l.map Prod.fst) : List.lookup k l = none := by
  induction l with
  | nil => rfl
  | cons p rest ih =>
      obtain ⟨k', v'⟩ := p
      simp only [List.map_cons, List.mem_cons, not_or] at h
      have hb : (k == k') = false := by simp [h.1]
      simp [List.lookup, hb, ih h.2]

theorem lookup_dictSetV_self (d : List (String × Val)) (k : String) (v : Val) :
    List.lookup k (dictSetV d k v) = some v := by
  induction d with
  | nil => simp [dictSetV, List.lookup]
  | cons p rest ih =>
      obtain ⟨k', v'⟩ := p
      by_cases h : k' = k
      · subst h; simp [dictSetV, List.lookup]
      · have hb : (k == k') = false := by simp [Ne.symm h]
        simp [dictSetV, if_neg h, List.lookup, hb, ih]

theorem lookup_dictSetV_ne (d : List (String × Val)) (k k' : String) (v : Val)
    (h : k ≠ k') : List.lookup k (dictSetV d k' v) = List.lookup k d := by
  induction d with
  | nil =>
      have hb : (k == k') = false := by simp [h]
      simp [dictSetV, List.lookup, hb]
  | cons p rest ih =>
      obtain ⟨k'', v''⟩ := p
      by_cases h2 : k'' = k'
      · subst h2
        have hb : (k == k'') = false := by simp [h]
        simp [dictSetV, List.lookup, hb]
      · cases hb : k == k'' <;> simp [dictSetV, if_neg h2, List.lookup, hb, ih]

theorem deep_merge_lookup : ∀ (override base : List (String × Val)) (k : String),
    (override.map Prod.fst).Nodup →
    (List.lookup k override = none →
       List.lookup k (deep_merge base override) = List.lookup k base) ∧
    (∀ ov, List.lookup k override = some ov →
       List.lookup k (deep_merge base override) =
         some (match List.lookup k base, ov with
               | some (Val.map bm), Val.map om => Val.map (deep_merge bm om)
               | _, _ => ov))
  | [], base, k, _ => by
      constructor
      · intro _; simp only [deep_merge]
      · intro ov hov; simp [List.lookup] at hov
  | (k1, v1) :: rest, base, k, ho => by
      rw [List.map_cons] at ho
      obtain ⟨hk1, hrest⟩ := List.nodup_cons.mp ho
      by_cases hk : k = k1
      · subst hk
        have hnone : List.lookup k rest = none :=
          lookup_eq_none_of_not_mem rest k hk1
        constructor
        · intro hnone2
          simp [List.lookup] at hnone2
        · intro ov hov
          have hov1 : v1 = ov := by simpa [List.lookup] using hov
          subst hov1
          rcases hlb : List.lookup k base with _ | bv
          · cases v1 <;>
              (simp only [deep_merge]
               rw [(deep_merge_lookup rest _ k hrest).1 hnone]
               simp [lookupMap, hlb, lookup_dictSetV_self])
          · cases bv <;> cases v1 <;>
              (simp only [deep_merge]
               rw [(deep_merge_lookup rest _ k hrest).1 hnone]
               simp [lookupMap, hlb, lookup_dictSetV_self])
      · have hb : (k == k1) = false := by simp [hk]
        constructor
        · intro hnone
          have hnone' : List.lookup k rest = none := by
            simpa [List.lookup, hb] using hnone
          cases v1 <;>
            (simp only [deep_merge]
             rw [(deep_merge_lookup rest _ k hrest).1 hnone']
             rcases hlm : lookupMap base k1 with _ | bm <;>
               simp [hlm, lookup_dictSetV_ne, hk])
        · intro ov hov
          have hov' : List.lookup k rest = some ov := by
            simpa [List.lookup, hb] using hov
          cases v1 <;>
            (simp only [deep_merge]
             rw [(deep_merge_lookup rest _ k hrest).2 ov hov']
             rcases hlm : lookupMap base k1 with _ | bm <;>
               simp [hlm, lookup_dictSetV_ne, hk])

/-- C5: for mappings `base` and `override` (unique keys, as Python
dicts have): at every key of `override`, the merged result holds the
recursive merge when both the existing and the incoming value are
mappings, and otherwise the incoming value in full (a scalar or
sequence wholly replaces a mapping, a sequence replaces a sequence
without element-wise merging); every key absent from `override` keeps
its `base` value.  The function returns the updated `base`. -/
theorem C5_deep_merge_semantics (base override : List (String × Val))
    (ho : (override.map Prod.fst).Nodup) (k : String) :
    (List.lookup k override = none →
       List.lookup k (deep_merge base override) = List.lookup k base) ∧
    (∀ ov, List.lookup k override = some ov →
       List.lookup k (deep_merge base override) =
         some (match List.lookup k base, ov with
               | some (Val.map bm), Val.map om => Val.map (deep_merge bm om)
               | _, _ => ov)) :=
  deep_merge_lookup override base k ho

theorem C5_deep_merge_semantics_witness :
    List.lookup "a" (deep_merge
      [("a", Val.map [("x", Val.num 1), ("y", Val.num 2)])]
      [("a", Val.map [("y", Val.num 3), ("z", Val.num 4)])]) =
    some (Val.map [("x", Val.num 1), ("y", Val.num 3), ("z", Val.num 4)]) := by
  have h := (C5_deep_merge_semantics
      [("a", Val.map [("x", Val.num 1), ("y", Val.num 2)])]
      [("a", Val.map [("y", Val.num 3), ("z", Val.num 4)])]
      (by simp) "a").2 (Val.map [("y", Val.num 3), ("z", Val.num 4)])
      (by simp [List.lookup])
  rw [h]
  simp [deep_merge, lookupMap, dictSetV, List.lookup, Option.elim]

end StickyDvr
